import Mathlib

/-!
Shallow embedding of the EEW (Earthquake Early Warning) aggregation service,
translated from the Python sources under src/, together with theorems about
the behaviour its specification describes.

Conventions used throughout:
* Python floats are modelled as rationals (ℚ); Python ints as ℤ or ℕ.
* Python datetimes are modelled as rationals holding epoch seconds.
* A fallible Python operation is modelled as Except / Option.
* The MISSING sentinel (src/src/utils.py) is modelled as Option.none.
-/

/-! ## Python round -- banker's rounding (round half to even) -/

/-- Python's built-in round for a rational value: round half to even. -/
def pyRound (q : ℚ) : ℤ :=
  if q - ⌊q⌋ < 1/2 then ⌊q⌋
  else if 1/2 < q - ⌊q⌋ then ⌊q⌋ + 1
  else if 2 ∣ ⌊q⌋ then ⌊q⌋ else ⌊q⌋ + 1

/-! ## round_intensity (src/src/earthquake/model.py lines 357-379) -/

/-- Embeds round_intensity: the JMA-style intensity bucket of a raw
floating-point intensity value. -/
def round_intensity (intensity : ℚ) : ℤ :=
  if intensity < 0 then 0
  else if intensity < 4.5 then pyRound intensity
  else if intensity < 5 then 5
  else if intensity < 5.5 then 6
  else if intensity < 6 then 7
  else if intensity < 6.5 then 8
  else 9

/-! ## Intensity (src/src/earthquake/model.py lines 133-169) -/

/-- The INTENSITY_DISPLAY table (src/src/earthquake/model.py lines 22-33),
a lookup from the bucket to its display string. -/
def INTENSITY_DISPLAY : ℤ → Option String
  | 0 => some "0級"
  | 1 => some "1級"
  | 2 => some "2級"
  | 3 => some "3級"
  | 4 => some "4級"
  | 5 => some "5弱"
  | 6 => some "5強"
  | 7 => some "6弱"
  | 8 => some "6強"
  | 9 => some "7級"
  | _ => none

/-- Embeds the Intensity class: a raw float value together with its rounded
bucket, as computed by the constructor. -/
structure Intensity where
  float_value : ℚ
  value : ℤ
deriving DecidableEq, Repr

/-- The Intensity constructor: stores the raw value and its bucket. -/
def Intensity.ofValue (v : ℚ) : Intensity :=
  ⟨v, round_intensity v⟩

/-! ## Location (src/src/earthquake/location.py lines 9-64) -/

/-- A Location value: longitude and latitude (floats, modelled as ℚ). -/
structure Location where
  longitude : ℚ
  latitude : ℚ
deriving DecidableEq, Repr

/-- Python errors that the embedded fragments can raise. -/
inductive PyError where
  | typeError
  | attributeError
  | keyError
deriving DecidableEq, Repr

/-- A Python value as far as Location.__eq__ can observe it: either an
instance of Location (or of a subclass) or a class object. -/
inductive PyValue where
  | instOf (l : Location)
  | classObj (isLocationSubclass : Bool)
deriving DecidableEq, Repr

/-- Python's issubclass builtin applied with second argument Location:
raises TypeError unless its first argument is a class object. -/
def pyIssubclassLocation : PyValue → Except PyError Bool
  | .instOf _ => .error .typeError
  | .classObj b => .ok b

/-- Embeds Location.__eq__ (src/src/earthquake/location.py lines 47-52):
returns issubclass(other, Location) and self._longitude == other._longitude
and self._latitude == other._latitude, with Python's short-circuit `and`.
Reading _longitude off a class object raises AttributeError (that branch is
unreachable for instances). -/
def Location.eq (self : Location) (other : PyValue) : Except PyError Bool :=
  match pyIssubclassLocation other with
  | .error e => .error e
  | .ok false => .ok false
  | .ok true =>
    match other with
    | .instOf o =>
        .ok (decide (self.longitude = o.longitude ∧ self.latitude = o.latitude))
    | .classObj _ => .error .attributeError

/-! ## MISSING sentinel and bulletin decoding
(src/src/utils.py, src/src/earthquake/eew.py) -/

/-- The raw "eq" object of a bulletin (§6 of the spec): the fields read by
EarthquakeData.from_dict. Optional fields are Option; data.get returns
none when the key is absent. -/
structure RawEq where
  lon : ℚ
  lat : ℚ
  depth : ℤ
  mag : ℚ
  time : ℚ
  loc : Option String
  max : Option ℤ
deriving DecidableEq, Repr

/-- EarthquakeLocation: a Location plus an optional display name
(src/src/earthquake/location.py lines 67-91). MISSING is none. -/
structure EarthquakeLocation where
  longitude : ℚ
  latitude : ℚ
  display_name : Option String
deriving DecidableEq, Repr

/-- EarthquakeData as built by from_dict (src/src/earthquake/eew.py lines
38-67 and 132-148). datetime.fromtimestamp(ms / 1000) is kept as the epoch
value in seconds. max_intensity is MISSING (none) unless set. -/
structure EarthquakeData where
  location : EarthquakeLocation
  magnitude : ℚ
  depth : ℤ
  time : ℚ
  max_intensity : Option Intensity
deriving DecidableEq, Repr

/-- Embeds EarthquakeData.from_dict (src/src/earthquake/eew.py lines
132-148). The max field feeds `Intensity(i) if (i := data.get("max"))
else MISSING`: an int is truthy exactly when it is non-zero. -/
def EarthquakeData.from_dict (data : RawEq) : EarthquakeData :=
  { location := ⟨data.lon, data.lat, data.loc⟩
    magnitude := data.mag
    depth := data.depth
    time := data.time / 1000
    max_intensity :=
      match data.max with
      | some i => if i ≠ 0 then some (Intensity.ofValue (i : ℚ)) else none
      | none => none }

/-- A raw EEW bulletin as served by GET /eq/eew (§6 of the spec): the fields
read by EEW.from_dict. -/
structure Bulletin where
  id : String
  serial : ℤ
  final : ℤ
  author : String
  time : ℚ
  eq : RawEq
deriving DecidableEq, Repr

/-- EEW as built by from_dict (src/src/earthquake/eew.py lines 259-357);
the provider object is kept as its name string. -/
structure EEW where
  id : String
  serial : ℤ
  final : Bool
  earthquake : EarthquakeData
  provider : String
  time : ℚ
deriving DecidableEq, Repr

/-- Embeds EEW.from_dict (src/src/earthquake/eew.py lines 340-357). -/
def EEW.from_dict (data : Bulletin) : EEW :=
  { id := data.id
    serial := data.serial
    final := data.final ≠ 0
    earthquake := EarthquakeData.from_dict data.eq
    provider := data.author
    time := data.time / 1000 }

/-! ## TTLCache (cachetools), as instantiated by Client.__init__
(src/src/client/client.py line 60): TTLCache(maxsize=inf, ttl=60*60).

An entry carries the absolute expiry instant set at insertion time:
expires = now + ttl.  cachetools treats an entry as expired once
expires <= now; expire(now) drops expired entries, __setitem__ first runs
expire(now) and then writes the new entry, and a lookup of an entry whose
expiry has passed behaves as a miss. -/

/-- One TTL-cache slot: the stored value and its absolute expiry time. -/
structure TTLEntry (α : Type) where
  value : α
  expires : ℚ
deriving DecidableEq, Repr

/-- The alert table: an association list id ↦ TTL entry. -/
abbrev TTLTable (α : Type) : Type := List (String × TTLEntry α)

/-- The TTL used for Client.alerts: 60 * 60 seconds. -/
def alertsTTL : ℚ := 60 * 60

/-- Raw association-list lookup (no expiry check). -/
def TTLTable.lookup {α : Type} (tbl : TTLTable α) (k : String) :
    Option (TTLEntry α) :=
  match List.find? (fun kv => kv.1 = k) tbl with
  | some kv => some kv.2
  | none => none

/-- TTLCache.expire(now): drop every entry whose expiry has passed. -/
def TTLTable.expire {α : Type} (tbl : TTLTable α) (now : ℚ) : TTLTable α :=
  List.filter (fun kv => decide (now < kv.2.expires)) tbl

/-- TTLCache.__setitem__: expire, then store the value with
expires = now + ttl. -/
def TTLTable.setItem {α : Type} (tbl : TTLTable α) (now : ℚ) (k : String)
    (v : α) : TTLTable α :=
  (List.filter (fun kv => ¬ kv.1 = k) (TTLTable.expire tbl now))
    ++ [(k, ⟨v, now + alertsTTL⟩)]

/-- TTLCache.get: a hit only if the entry exists and is not yet expired. -/
def TTLTable.getItem {α : Type} (tbl : TTLTable α) (now : ℚ) (k : String) :
    Option α :=
  match TTLTable.lookup tbl k with
  | some e => if now < e.expires then some e.value else none
  | none => none

/-! ## Client event dispatch (src/src/client/client.py) -/

/-- An event dispatched to every notification client. -/
inductive Event where
  | send (eew : EEW)
  | update (eew : EEW)
  | lift (eew : EEW)
deriving DecidableEq, Repr

/-- The EEW carried by an event. -/
def Event.eew : Event → EEW
  | .send e => e
  | .update e => e
  | .lift e => e

/-- Whether an event is an update event. -/
def Event.isUpdate : Event → Bool
  | .update _ => true
  | _ => false

/-- Embeds Client.new_alert (src/src/client/client.py lines 69-89): decode,
store into the TTL table, and dispatch send_eew to every notifier. -/
def Client.new_alert (alerts : TTLTable EEW) (now : ℚ) (data : Bulletin) :
    TTLTable EEW × List Event :=
  let eew := EEW.from_dict data
  (TTLTable.setItem alerts now eew.id eew, [Event.send eew])

/-- Embeds Client.update_alert (src/src/client/client.py lines 91-114):
decode, replace the stored alert, cancel the prior computation, and
dispatch update_eew to every notifier. -/
def Client.update_alert (alerts : TTLTable EEW) (now : ℚ) (data : Bulletin) :
    TTLTable EEW × List Event :=
  let eew := EEW.from_dict data
  (TTLTable.setItem alerts now eew.id eew, [Event.update eew])

/-- The eew_source whitelist computed by Client.__init__ (lines 61-64):
none means `all` was set (accept every provider); otherwise only the listed
providers are accepted. -/
def eewSourceAllows (src : Option (List String)) (author : String) : Bool :=
  match src with
  | none => true
  | some l => List.contains l author

/-- Embeds Client.on_eew (src/src/client/client.py lines 125-137): drop
bulletins from non-whitelisted providers, expire the table, then dispatch
new_alert when the id is untracked and update_alert when the incoming
serial is strictly greater than the stored one. -/
def Client.on_eew (src : Option (List String)) (alerts : TTLTable EEW)
    (now : ℚ) (data : Bulletin) : TTLTable EEW × List Event :=
  if ¬ eewSourceAllows src data.author then (alerts, [])
  else
    let alerts := TTLTable.expire alerts now
    match TTLTable.getItem alerts now data.id with
    | none => Client.new_alert alerts now data
    | some eew =>
      if data.serial > eew.serial then Client.update_alert alerts now data
      else (alerts, [])

/-- Folding Client.on_eew over a list of bulletins arriving at one instant,
collecting every dispatched event. -/
def Client.processAll (src : Option (List String)) (alerts : TTLTable EEW)
    (now : ℚ) : List Bulletin → TTLTable EEW × List Event
  | [] => (alerts, [])
  | d :: rest =>
    let r := Client.on_eew src alerts now d
    let r2 := Client.processAll src r.1 now rest
    (r2.1, r.2 ++ r2.2)

/-! ## HTTPEEWClient._get_request (src/src/client.py lines 94-121)

The older HTTP polling client keeps a plain dict id ↦ EEW.  One polling
cycle parses the snapshot, then classifies each bulletin: absent id →
new_alert, stored serial different from the incoming serial → update_alert
(note: different, not strictly greater), and finally pops every tracked id
absent from the snapshot.  Two behaviours of the source are modelled
exactly as written:
* `if not data: return` — an empty snapshot aborts the cycle before any
  classification or removal;
* `self.lift_alert(eew)` is called without being awaited, so the coroutine
  never executes and no lift_eew call reaches any notifier; only the
  dict pop takes effect. -/

/-- Plain dict write: replace the value under the key, else append. -/
def assocSet (l : List (String × EEW)) (k : String) (v : EEW) :
    List (String × EEW) :=
  if List.any l (fun kv => kv.1 = k) then
    List.map (fun kv => if kv.1 = k then (k, v) else kv) l
  else l ++ [(k, v)]

/-- One classification step of the snapshot loop in _get_request
(src/src/client.py lines 108-115), threading the table and the events
dispatched so far. -/
def HTTPEEWClient.step (st : List (String × EEW) × List Event)
    (d : Bulletin) : List (String × EEW) × List Event :=
  match List.find? (fun kv => kv.1 = d.id) st.1 with
  | none =>
    let eew := EEW.from_dict d
    (assocSet st.1 eew.id eew, st.2 ++ [Event.send eew])
  | some kv =>
    if kv.2.serial ≠ d.serial then
      let eew := EEW.from_dict d
      (assocSet st.1 eew.id eew, st.2 ++ [Event.update eew])
    else st

/-- Embeds the snapshot processing of HTTPEEWClient._get_request
(src/src/client.py lines 94-121): returns the table after the cycle and
the events actually dispatched to notifiers during it. -/
def HTTPEEWClient.getRequest (alerts : List (String × EEW))
    (data : List Bulletin) : List (String × EEW) × List Event :=
  if data.isEmpty then (alerts, [])
  else
    let folded := List.foldl HTTPEEWClient.step (alerts, []) data
    let finished := List.filter
      (fun k => ¬ List.any data (fun d => d.id = k))
      (List.map Prod.fst alerts)
    (List.filter (fun kv => ¬ List.contains finished kv.1) folded.1, folded.2)

/-! ## Computation cancellation in Client.update_alert
(src/src/client/client.py lines 91-114) -/

/-- Modelled from the spec: the methods
EarthquakeData.calc_all_data_in_executor and the _calc_task handle are
referenced from src/src/client/client.py but defined nowhere under src/;
per §3 and §4.8 of the spec an alert owns a handle to the running
computation of its earthquake, cancelling it stops that computation and
calc_all_data_in_executor starts a fresh one.  These constructors are the
observable actions performed by Client.update_alert, in program order. -/
inductive CalcAction where
  | storeAlert (id : String) (serial : ℤ)
  | cancelCalc (id : String) (serial : ℤ)
  | startCalc (id : String) (serial : ℤ)
  | dispatchUpdate (notifier : ℕ) (id : String) (serial : ℤ)
deriving DecidableEq, Repr

/-- Whether an action dispatches update_eew to a notifier. -/
def CalcAction.isDispatch : CalcAction → Bool
  | .dispatchUpdate _ _ _ => true
  | _ => false

/-- The action trace of Client.update_alert (src/src/client/client.py lines
91-114) in source order: store the new alert, cancel the old computation if
an old alert exists, start the new computation, then create one
update_eew dispatch task per notification client. -/
def Client.update_alert_trace (old : Option EEW) (eew : EEW)
    (notifiers : ℕ) : List CalcAction :=
  [CalcAction.storeAlert eew.id eew.serial]
  ++ (match old with
      | some o => [CalcAction.cancelCalc o.id o.serial]
      | none => [])
  ++ [CalcAction.startCalc eew.id eew.serial]
  ++ List.map (fun n => CalcAction.dispatchUpdate n eew.id eew.serial)
      (List.range notifiers)

/-- Modelled from the spec: the set of running per-alert computations,
keyed by (id, serial).  startCalc adds a computation, cancelCalc removes
it; storing an alert or dispatching an event does not touch it. -/
def applyCalcAction (running : List (String × ℤ)) :
    CalcAction → List (String × ℤ)
  | .cancelCalc id s =>
      List.filter (fun r => ¬ (r.1 = id ∧ r.2 = s)) running
  | .startCalc id s => running ++ [(id, s)]
  | .storeAlert _ _ => running
  | .dispatchUpdate _ _ _ => running

/-- The running-computation states reached while a trace executes
(including the initial and final state). -/
def calcStates (running : List (String × ℤ)) (tr : List CalcAction) :
    List (List (String × ℤ)) :=
  match tr with
  | [] => [running]
  | a :: rest => running :: calcStates (applyCalcAction running a) rest

/-- The computations of a given alert id among the running set. -/
def runningFor (running : List (String × ℤ)) (id : String) :
    List (String × ℤ) :=
  List.filter (fun r => r.1 = id) running

/-! ## Reconnect delay (src/src/client/client.py lines 148-200 and
src/src/client/websocket.py lines 357-405) -/

/-- One outcome of a connection attempt in the reconnect loops. -/
inductive ConnEvent where
  | failure
  | subscribed
deriving DecidableEq, Repr

/-- The delay update of Client.ws_connect: a successful subscription resets
_reconnect_delay to 0 (line 176); a failure adds 10 s unless the delay
already reached the 600 s cap (lines 197-198). -/
def Client.ws_connect_delay (d : ℕ) : ConnEvent → ℕ
  | .failure => if d < 600 then d + 10 else d
  | .subscribed => 0

/-- The _reconnect_delay value of Client.ws_connect after a sequence of
attempt outcomes, starting from the initial 0. -/
def Client.delayAfter (evs : List ConnEvent) : ℕ :=
  List.foldl Client.ws_connect_delay 0 evs

/-- The delay update of the legacy WebsocketClient.connect
(src/src/client/websocket.py lines 385, 395, 401): a success resets the
delay to 0, a failure adds 10 s with no cap. -/
def WebsocketClient.connect_delay (d : ℕ) : ConnEvent → ℕ
  | .failure => d + 10
  | .subscribed => 0

/-- The _reconnect_delay value of WebsocketClient.connect after a sequence
of attempt outcomes, starting from the class default 0. -/
def WebsocketClient.delayAfter (evs : List ConnEvent) : ℕ :=
  List.foldl WebsocketClient.connect_delay 0 evs

/-! ## WebSocket verification (src/src/client/websocket.py lines 174-215)
and the supervisor fallback (src/src/client/client.py lines 139-200) -/

/-- A frame as observed by wait_for_verify after JSON decoding: an info
frame carries data.code and data.list; every frame whose top-level type is
not "info" is skipped by the loop. -/
inductive WSFrame where
  | info (code : ℤ) (svcList : List String)
  | nonInfo
deriving DecidableEq, Repr

/-- The outcome of ExpTechWebSocket.wait_for_verify within the 60 s window:
the verified payload list, a reconnect signal with its reopen flag, an
authorization failure, or the timeout when the frame stream is exhausted
without a decisive info frame. -/
inductive VerifyResult where
  | ok (svcList : List String)
  | reconnect (reopen : Bool)
  | authFailed
  | timeout
deriving DecidableEq, Repr

/-- Embeds ExpTechWebSocket.wait_for_verify (src/src/client/websocket.py
lines 182-215): loop over incoming frames; skip non-info frames; code 200
returns the payload, 400 and 429 raise WebSocketReconnect(reopen=True),
401 and 403 raise AuthorizationFailed, and any other info code falls
through and the loop keeps waiting (until the asyncio.wait_for timeout of
60 s, reached here when the frame list ends). -/
def wait_for_verify : List WSFrame → VerifyResult
  | [] => .timeout
  | .nonInfo :: rest => wait_for_verify rest
  | .info code svcList :: rest =>
    if code = 200 then .ok svcList
    else if code = 400 then .reconnect true
    else if code = 401 then .authFailed
    else if code = 403 then .authFailed
    else if code = 429 then .reconnect true
    else wait_for_verify rest

/-- The websocket connection configuration held by the Client
(key and subscribed services). -/
structure WSConfig where
  key : String
  service : List String
deriving DecidableEq, Repr

/-- The Client state observed by connect/ws_connect: the websocket
configuration (None once dropped) and the closed flag. -/
structure ClientState where
  websocket_config : Option WSConfig
  closed : Bool
deriving DecidableEq, Repr

/-- The transport mode Client.connect selects (src/src/client/client.py
lines 139-146): WebSocket when websocket_config is truthy, HTTP polling
otherwise. -/
inductive ConnectMode where
  | ws
  | http
deriving DecidableEq, Repr

/-- Embeds the mode choice of Client.connect. -/
def Client.connect_mode (s : ClientState) : ConnectMode :=
  match s.websocket_config with
  | some _ => .ws
  | none => .http

/-- The exceptional outcomes handled by the ws_connect loop body. -/
inductive SupEvent where
  | authFailed
  | wsReconnect (reopen : Bool)
  | otherError
  | subscribedOk
deriving DecidableEq, Repr

/-- Embeds the state effect of one iteration of Client.ws_connect
(src/src/client/client.py lines 153-200) on the client state:
AuthorizationFailed closes the client and clears websocket_config
(lines 179-184); every other outcome leaves both fields unchanged
(the reconnect paths only adjust the delay and the node index). -/
def Client.ws_connect_on_event (s : ClientState) : SupEvent → ClientState
  | .authFailed => { websocket_config := none, closed := true }
  | .wsReconnect _ => s
  | .otherError => s
  | .subscribedOk => s

/-- The client state after a sequence of ws_connect loop outcomes. -/
def Client.supervise (s : ClientState) (evs : List SupEvent) : ClientState :=
  List.foldl Client.ws_connect_on_event s evs

/-! ## HTTP node latency probe (src/src/client/http.py lines 53-70) -/

/-- A measured latency: a finite elapsed time or float("inf"). -/
inductive Latency where
  | fin (q : ℚ)
  | inf
deriving DecidableEq, Repr

/-- The order on latencies used by the sort key (float order with inf as
the top element). -/
def latLE : Latency → Latency → Bool
  | .fin a, .fin b => decide (a ≤ b)
  | .fin _, .inf => true
  | .inf, .fin _ => false
  | .inf, .inf => true

/-- An HTTP response as observed by HTTPClient._test_latency: its status
and the elapsed request time.  aiohttp's response.ok is 400 > status. -/
structure HTTPResponse where
  status : ℤ
  elapsed : ℚ
deriving DecidableEq, Repr

/-- Embeds HTTPClient._test_latency (src/src/client/http.py lines 53-63):
the elapsed time when the response is ok (status < 400), float("inf") on a
non-ok status or an exception (modelled as none). -/
def HTTPClient.test_latency : Option HTTPResponse → Latency
  | some r => if r.status < 400 then .fin r.elapsed else .inf
  | none => .inf

/-- The comparison on (node, latency) pairs induced by
sort(key=lambda x: x[1]). -/
def nodeLatLE (a b : String × Latency) : Prop := latLE a.2 b.2 = true

instance : DecidableRel nodeLatLE := fun a b => by
  unfold nodeLatLE
  infer_instance

instance : IsTotal (String × Latency) nodeLatLE where
  total a b := by
    unfold nodeLatLE
    cases a.2 <;> cases b.2 <;> simp [latLE]
    exact le_total _ _

instance : IsTrans (String × Latency) nodeLatLE where
  trans a b c := by
    unfold nodeLatLE
    cases a.2 <;> cases b.2 <;> cases c.2 <;> simp [latLE]
    exact fun h1 h2 => le_trans h1 h2

/-- Embeds HTTPClient.test_api_latencies (src/src/client/http.py lines
65-70): measure every node in order, then sort the (node, latency) list
ascending by latency.  Python's list.sort is a stable sort, and a stable
sort by a total preorder is extensionally unique, so the stable
List.insertionSort is a faithful model of it. -/
def HTTPClient.test_api_latencies (nodes : List String)
    (fetch : String → Option HTTPResponse) : List (String × Latency) :=
  List.insertionSort nodeLatLE
    (List.map (fun n => (n, HTTPClient.test_latency (fetch n))) nodes)

/-! ## Sample values used by witnesses and counterexamples -/

/-- A sample raw earthquake payload (no loc, no max field). -/
def sampleEq : RawEq := ⟨120, 23, 40, 6, 1700000000000, none, none⟩

/-- A sample bulletin for alert id A with the given serial. -/
def bulletinA (serial : ℤ) : Bulletin :=
  ⟨"A", serial, 0, "cwa", 1700000000000, sampleEq⟩

/-- A sample bulletin for alert id B. -/
def bulletinB : Bulletin := ⟨"B", 1, 0, "cwa", 1700000000000, sampleEq⟩

/-- The decoded alert A at the given serial. -/
def eewA (serial : ℤ) : EEW := EEW.from_dict (bulletinA serial)

/-- The decoded alert B. -/
def eewB : EEW := EEW.from_dict bulletinB

/-- A bulletin for alert A published at epoch 0. -/
def bulletinA0 : Bulletin := ⟨"A", 1, 0, "cwa", 0, sampleEq⟩

/-- The decoded alert A published at epoch 0. -/
def eewA0 : EEW := EEW.from_dict bulletinA0

/-- The serials of the events already dispatched for a given alert id, in
dispatch order. -/
def eventSerials (k : String) (evs : List Event) : List ℤ :=
  List.map (fun e => e.eew.serial)
    (List.filter (fun e => e.eew.id = k) evs)

/-- Invariant of a same-instant run of Client.on_eew: every table entry
carries the expiry stamped at this instant, the serials of the events
dispatched per id are strictly increasing, and every dispatched serial is
bounded by the serial currently stored for its id. -/
def ClientInv (now : ℚ) (tbl : TTLTable EEW) (evs : List Event) : Prop :=
  (∀ kv ∈ tbl, kv.2.expires = now + alertsTTL) ∧
  (∀ k : String, List.Pairwise (· < ·) (eventSerials k evs)) ∧
  (∀ e ∈ evs, ∃ en, TTLTable.lookup tbl e.eew.id = some en ∧
      e.eew.serial ≤ en.value.serial)

/-! ## Theorems -/

theorem pyRound_lower (q : ℚ) : ⌊q⌋ ≤ pyRound q := by
  unfold pyRound
  split_ifs <;> omega

theorem pyRound_upper (q : ℚ) : pyRound q ≤ ⌊q⌋ + 1 := by
  unfold pyRound
  split_ifs <;> omega

theorem round_intensity_nonneg (i : ℚ) : 0 ≤ round_intensity i := by
  unfold round_intensity
  split_ifs with h0 h1
  · exact le_refl 0
  · have hf : (0:ℤ) ≤ ⌊i⌋ := by
      apply Int.le_floor.mpr
      push_cast
      linarith
    calc (0:ℤ) ≤ ⌊i⌋ := hf
      _ ≤ pyRound i := pyRound_lower i
  all_goals norm_num

theorem round_intensity_le_nine (i : ℚ) : round_intensity i ≤ 9 := by
  unfold round_intensity
  split_ifs with h0 h1
  · norm_num
  · have hf : ⌊i⌋ ≤ 4 := by
      have : ⌊i⌋ < 5 := by
        apply Int.floor_lt.mpr
        push_cast
        linarith [h1]
      omega
    calc pyRound i ≤ ⌊i⌋ + 1 := pyRound_upper i
      _ ≤ 9 := by omega
  all_goals norm_num

/-! ## C7 -/

/-- C7: for every intensity value i, round_intensity i equals the
piecewise mapping 0 if i < 0; round(i) if i < 4.5; 5 if i < 5; 6 if
i < 5.5; 7 if i < 6; 8 if i < 6.5; and 9 otherwise, and the bucket is
always an integer in 0..9. -/
theorem round_intensity_piecewise (i : ℚ) :
    (i < 0 → round_intensity i = 0) ∧
    (0 ≤ i → i < 4.5 → round_intensity i = pyRound i) ∧
    (4.5 ≤ i → i < 5 → round_intensity i = 5) ∧
    (5 ≤ i → i < 5.5 → round_intensity i = 6) ∧
    (5.5 ≤ i → i < 6 → round_intensity i = 7) ∧
    (6 ≤ i → i < 6.5 → round_intensity i = 8) ∧
    (6.5 ≤ i → round_intensity i = 9) ∧
    0 ≤ round_intensity i ∧ round_intensity i ≤ 9 := by
  refine ⟨?_, ?_, ?_, ?_, ?_, ?_, ?_,
    round_intensity_nonneg i, round_intensity_le_nine i⟩ <;>
  · intros
    unfold round_intensity
    split_ifs <;> first | rfl | linarith

/-- Witness for C7 at i = 4.7: the 4.5 ≤ i < 5 branch yields bucket 5. -/
theorem round_intensity_piecewise_witness :
    (4.5:ℚ) ≤ 4.7 ∧ (4.7:ℚ) < 5 ∧ round_intensity 4.7 = 5 :=
  ⟨by norm_num, by norm_num,
    (round_intensity_piecewise 4.7).2.2.1 (by norm_num) (by norm_num)⟩

/-! ## C9 -/

/-- C9 (code evaluation): Location.__eq__ calls issubclass on the other
operand, which is an instance rather than a class, so comparing any two
Location values raises TypeError instead of comparing coordinates. -/
theorem location_eq_always_raises (self other : Location) :
    Location.eq self (PyValue.instOf other) =
      Except.error PyError.typeError := rfl

/-! ## C10 -/

/-- C10: EarthquakeData.from_dict treats a max field equal to 0 like an
absent field (max_intensity is the MISSING sentinel), and produces a real
Intensity exactly when the field is present and non-zero. -/
theorem from_dict_max_intensity_zero_is_missing (d : RawEq) :
    (d.max = none → (EarthquakeData.from_dict d).max_intensity = none) ∧
    (d.max = some 0 → (EarthquakeData.from_dict d).max_intensity = none) ∧
    (∀ i : ℤ, d.max = some i → i ≠ 0 →
      (EarthquakeData.from_dict d).max_intensity =
        some (Intensity.ofValue (i : ℚ))) := by
  refine ⟨?_, ?_, ?_⟩
  · intro h
    simp [EarthquakeData.from_dict, h]
  · intro h
    simp [EarthquakeData.from_dict, h]
  · intro i h hne
    simp [EarthquakeData.from_dict, h, hne]

/-- Witness for C10 at a payload whose max field is 4. -/
theorem from_dict_max_intensity_zero_is_missing_witness :
    (EarthquakeData.from_dict ⟨120, 23, 40, 6, 0, none, some 4⟩).max_intensity
      = some (Intensity.ofValue 4) :=
  (from_dict_max_intensity_zero_is_missing ⟨120, 23, 40, 6, 0, none, some 4⟩).2.2
    4 rfl (by norm_num)

/-! ## C5 -/

theorem Client.capped_delay_growth (k : ℕ) :
    List.foldl Client.ws_connect_delay 0 (List.replicate k ConnEvent.failure)
      = min (10 * k) 600 := by
  induction k with
  | zero => simp
  | succ n ih =>
    rw [List.replicate_succ', List.foldl_append, ih]
    simp only [List.foldl_cons, List.foldl_nil, Client.ws_connect_delay]
    split_ifs <;> omega

theorem WebsocketClient.legacy_delay_growth (k : ℕ) :
    List.foldl WebsocketClient.connect_delay 0
      (List.replicate k ConnEvent.failure) = 10 * k := by
  induction k with
  | zero => simp
  | succ n ih =>
    rw [List.replicate_succ', List.foldl_append, ih]
    simp only [List.foldl_cons, List.foldl_nil, WebsocketClient.connect_delay]
    omega

/-- C5 counterexample: in the legacy WebsocketClient.connect reconnect
loop the delay after 61 consecutive failures is 610 s, not
min(10·61, 600) = 600 s: the +10 s growth is not capped there. -/
theorem wsclient_delay_not_capped :
    WebsocketClient.delayAfter (List.replicate 61 ConnEvent.failure) = 610 ∧
    min (10 * 61) 600 = 600 ∧
    WebsocketClient.delayAfter (List.replicate 61 ConnEvent.failure)
      ≠ min (10 * 61) 600 := by
  refine ⟨?_, by norm_num, ?_⟩
  · rw [WebsocketClient.delayAfter, WebsocketClient.legacy_delay_growth]
  · rw [WebsocketClient.delayAfter, WebsocketClient.legacy_delay_growth]
    norm_num

/-- C5 (amended): in Client.ws_connect the delay slept before the k-th
consecutive reconnect attempt is min(10·k, 600) seconds, both from startup
and after any successful subscription (which resets the counter to 0);
in the legacy WebsocketClient.connect the delay after k consecutive
failures is 10·k seconds with no cap, resetting on success as well. -/
theorem ws_connect_delay_spec :
    (∀ k : ℕ, Client.delayAfter (List.replicate k ConnEvent.failure)
        = min (10 * k) 600) ∧
    (∀ (evs : List ConnEvent) (k : ℕ),
      Client.delayAfter
          (evs ++ ConnEvent.subscribed :: List.replicate k ConnEvent.failure)
        = min (10 * k) 600) ∧
    (∀ d : ℕ, Client.ws_connect_delay d ConnEvent.subscribed = 0) ∧
    (∀ (evs : List ConnEvent) (k : ℕ),
      WebsocketClient.delayAfter
          (evs ++ ConnEvent.subscribed :: List.replicate k ConnEvent.failure)
        = 10 * k) := by
  refine ⟨Client.capped_delay_growth, ?_, fun d => rfl, ?_⟩
  · intro evs k
    rw [Client.delayAfter, List.foldl_append, List.foldl_cons]
    exact Client.capped_delay_growth k
  · intro evs k
    rw [WebsocketClient.delayAfter, List.foldl_append, List.foldl_cons]
    exact WebsocketClient.legacy_delay_growth k

/-! ## C6 -/

theorem supervise_config_none (evs : List SupEvent) :
    ∀ s : ClientState, s.websocket_config = none →
      (Client.supervise s evs).websocket_config = none := by
  induction evs with
  | nil => intro s h; exact h
  | cons e rest ih =>
    intro s h
    rw [Client.supervise, List.foldl_cons]
    apply ih
    cases e <;> simp [Client.ws_connect_on_event, h]

/-- C6: during WebSocket authentication an info frame with code 200 yields
the subscribed service list; codes 400 and 429 raise a reconnect signal
with reopen=true; codes 401 and 403 raise AuthorizationFailed, upon which
ws_connect clears websocket_config so the client runs in HTTP polling mode
for the rest of the process lifetime; any other info code is ignored and
waiting continues (until the 60 s timeout when no decisive frame ever
arrives). -/
theorem wait_for_verify_codes :
    (∀ (l : List String) rest,
      wait_for_verify (WSFrame.info 200 l :: rest) = VerifyResult.ok l) ∧
    (∀ (l : List String) rest,
      wait_for_verify (WSFrame.info 400 l :: rest)
        = VerifyResult.reconnect true) ∧
    (∀ (l : List String) rest,
      wait_for_verify (WSFrame.info 429 l :: rest)
        = VerifyResult.reconnect true) ∧
    (∀ (l : List String) rest,
      wait_for_verify (WSFrame.info 401 l :: rest) = VerifyResult.authFailed) ∧
    (∀ (l : List String) rest,
      wait_for_verify (WSFrame.info 403 l :: rest) = VerifyResult.authFailed) ∧
    (∀ (c : ℤ) (l : List String) rest,
      c ∉ ([200, 400, 401, 403, 429] : List ℤ) →
      wait_for_verify (WSFrame.info c l :: rest) = wait_for_verify rest) ∧
    wait_for_verify [] = VerifyResult.timeout ∧
    (∀ s : ClientState,
      Client.ws_connect_on_event s SupEvent.authFailed
        = { websocket_config := none, closed := true }) ∧
    (∀ (s : ClientState) (evs : List SupEvent),
      Client.connect_mode
          (Client.supervise
            (Client.ws_connect_on_event s SupEvent.authFailed) evs)
        = ConnectMode.http) := by
  refine ⟨?_, ?_, ?_, ?_, ?_, ?_, rfl, fun s => rfl, ?_⟩
  · intro l rest; rfl
  · intro l rest; rfl
  · intro l rest; rfl
  · intro l rest; rfl
  · intro l rest; rfl
  · intro c l rest h
    simp only [List.mem_cons, List.not_mem_nil, or_false, not_or] at h
    obtain ⟨h1, h2, h3, h4, h5⟩ := h
    simp [wait_for_verify, h1, h2, h3, h4, h5]
  · intro s evs
    have h : (Client.supervise
        (Client.ws_connect_on_event s SupEvent.authFailed) evs).websocket_config
        = none := supervise_config_none evs _ rfl
    rw [Client.connect_mode, h]

/-- Witness for C6: the info code 503 is not decisive, so verification
keeps waiting and a later code-200 frame still succeeds. -/
theorem wait_for_verify_codes_witness :
    (503:ℤ) ∉ ([200, 400, 401, 403, 429] : List ℤ) ∧
    wait_for_verify [WSFrame.info 503 [], WSFrame.info 200 ["websocket.eew"]]
      = VerifyResult.ok ["websocket.eew"] := by
  constructor
  · decide
  · rw [wait_for_verify_codes.2.2.2.2.2.1 503 [] _ (by decide)]
    exact wait_for_verify_codes.1 ["websocket.eew"] []

/-! ## C8 -/

theorem filter_latency_insertionSort (l : List (String × Latency))
    (q : Latency) :
    List.filter (fun a => a.2 = q) (List.insertionSort nodeLatLE l)
      = List.filter (fun a => a.2 = q) l := by
  have hmem : ∀ a ∈ List.filter (fun a => decide (a.2 = q)) l, a.2 = q := by
    intro a ha
    simpa using List.of_mem_filter ha
  have hpw : (List.filter (fun a => decide (a.2 = q)) l).Pairwise nodeLatLE := by
    apply List.pairwise_of_forall_mem_list
    intro a ha b hb
    unfold nodeLatLE
    rw [hmem a ha, hmem b hb]
    cases q <;> simp [latLE]
  have hsub : List.Sublist (List.filter (fun a => decide (a.2 = q)) l)
      (List.insertionSort nodeLatLE l) :=
    List.sublist_insertionSort hpw (List.filter_sublist l)
  have hsub2 := hsub.filter (fun a => decide (a.2 = q))
  rw [List.filter_filter] at hsub2
  have hself : List.filter
      (fun a => decide (a.2 = q) && decide (a.2 = q)) l
      = List.filter (fun a => decide (a.2 = q)) l := by
    apply List.filter_congr
    intro a _
    cases h : decide (a.2 = q) <;> rfl
  rw [hself] at hsub2
  have hlen : (List.filter (fun a => decide (a.2 = q))
        (List.insertionSort nodeLatLE l)).length
      = (List.filter (fun a => decide (a.2 = q)) l).length :=
    ((List.perm_insertionSort nodeLatLE l).filter _).length_eq
  exact (hsub2.eq_of_length hlen.symm).symm

/-- C8 counterexample: a node answering 302 (a non-2xx status) is recorded
with its finite elapsed time, because aiohttp's response.ok is
status < 400; the claim would record infinity. -/
theorem test_latency_non2xx_finite :
    HTTPClient.test_latency (some ⟨302, 7/2⟩) = Latency.fin (7/2) ∧
    ¬ (200 ≤ (302:ℤ) ∧ (302:ℤ) < 300) ∧
    HTTPClient.test_latency (some ⟨302, 7/2⟩) ≠ Latency.inf := by
  refine ⟨?_, by norm_num, ?_⟩
  · simp [HTTPClient.test_latency]
  · simp [HTTPClient.test_latency]

/-- C8 (amended): after test_api_latencies the node list is sorted
ascending by recorded latency with ties keeping their original relative
order, and a node is recorded with latency infinity exactly when its probe
failed or answered a non-ok status (status ≥ 400; aiohttp's ok is
status < 400, so a 3xx answer records its finite elapsed time). -/
theorem test_api_latencies_sorted_stable (nodes : List String)
    (fetch : String → Option HTTPResponse) :
    List.Sorted nodeLatLE (HTTPClient.test_api_latencies nodes fetch) ∧
    List.Perm (HTTPClient.test_api_latencies nodes fetch)
      (List.map (fun n => (n, HTTPClient.test_latency (fetch n))) nodes) ∧
    (∀ q : Latency,
      List.filter (fun a => a.2 = q)
          (HTTPClient.test_api_latencies nodes fetch)
        = List.filter (fun a => a.2 = q)
            (List.map (fun n => (n, HTTPClient.test_latency (fetch n)))
              nodes)) ∧
    (∀ r : HTTPResponse, 400 ≤ r.status →
      HTTPClient.test_latency (some r) = Latency.inf) ∧
    HTTPClient.test_latency none = Latency.inf ∧
    (∀ r : HTTPResponse, r.status < 400 →
      HTTPClient.test_latency (some r) = Latency.fin r.elapsed) := by
  refine ⟨List.sorted_insertionSort nodeLatLE _,
    List.perm_insertionSort nodeLatLE _,
    fun q => filter_latency_insertionSort _ q, ?_, rfl, ?_⟩
  · intro r h
    simp [HTTPClient.test_latency]
    omega
  · intro r h
    simp [HTTPClient.test_latency, h]

/-- Witness for C8 on concrete probes: a 500 answer and a failure record
infinity, a 200 answer records its elapsed time, and a concrete two-node
probe result is sorted. -/
theorem test_api_latencies_sorted_stable_witness :
    HTTPClient.test_latency (some ⟨500, 1⟩) = Latency.inf ∧
    HTTPClient.test_latency (some ⟨200, 2⟩) = Latency.fin 2 ∧
    List.Sorted nodeLatLE (HTTPClient.test_api_latencies
      ["api-1", "api-2"] (fun n => if n = "api-1" then none else some ⟨200, 2⟩)) :=
  ⟨(test_api_latencies_sorted_stable [] (fun _ => none)).2.2.2.1 ⟨500, 1⟩
      (by norm_num),
    (test_api_latencies_sorted_stable [] (fun _ => none)).2.2.2.2.2 ⟨200, 2⟩
      (by norm_num),
    (test_api_latencies_sorted_stable ["api-1", "api-2"]
      (fun n => if n = "api-1" then none else some ⟨200, 2⟩)).1⟩

/-! ## C2 -/

/-- C2 (code evaluation): with alert A tracked, an empty /eq/eew snapshot
leaves the table unchanged and dispatches no event at all — the
`if not data: return` guard aborts the cycle, so A is neither removed nor
lifted; and even on a non-empty snapshot that drops A, A is popped from
the table but no lift_eew dispatch reaches any notifier, because
`self.lift_alert(eew)` is never awaited. -/
theorem getRequest_never_dispatches_lift :
    HTTPEEWClient.getRequest [("A", eewA 1)] [] = ([("A", eewA 1)], []) ∧
    HTTPEEWClient.getRequest [("A", eewA 1)] [bulletinB]
      = ([("B", eewB)], [Event.send eewB]) := by
  constructor
  · rfl
  · rfl

/-! ## C1 -/

/-- C1 counterexample: in HTTPEEWClient._get_request a bulletin whose
serial is strictly LOWER than the stored serial still dispatches an update
event, because the guard is serial-different rather than
serial-strictly-greater: with A tracked at serial 2, the arrival of serial
1 dispatches update_eew (a second event for the pair (A, 1) if serial 1
had been seen before A was first dropped and re-added). -/
theorem getRequest_lower_serial_dispatches :
    (bulletinA 1).serial < (eewA 2).serial ∧
    HTTPEEWClient.getRequest [("A", eewA 2)] [bulletinA 1]
      = ([("A", eewA 1)], [Event.update (eewA 1)]) := by
  refine ⟨by norm_num [bulletinA, eewA, EEW.from_dict], rfl⟩

/-! ## C3 -/

theorem TTLTable.lookup_cons {α : Type} (a : String × TTLEntry α)
    (l : TTLTable α) (k : String) :
    TTLTable.lookup (a :: l) k
      = if a.1 = k then some a.2 else TTLTable.lookup l k := by
  by_cases h : a.1 = k
  · simp [TTLTable.lookup, List.find?, h]
  · simp [TTLTable.lookup, List.find?, h]

theorem TTLTable.lookup_filter_ne_self {α : Type} (l : TTLTable α)
    (k : String) :
    TTLTable.lookup (List.filter (fun kv => ¬ kv.1 = k) l) k = none := by
  induction l with
  | nil => rfl
  | cons a rest ih =>
    by_cases h : a.1 = k
    · simpa [List.filter_cons, h] using ih
    · simpa [List.filter_cons, h, TTLTable.lookup_cons] using ih

theorem TTLTable.lookup_append_left_none {α : Type} (l1 l2 : TTLTable α)
    (k : String) (h : TTLTable.lookup l1 k = none) :
    TTLTable.lookup (l1 ++ l2) k = TTLTable.lookup l2 k := by
  induction l1 with
  | nil => rfl
  | cons a rest ih =>
    rw [TTLTable.lookup_cons] at h
    by_cases ha : a.1 = k
    · rw [if_pos ha] at h
      exact absurd h (by simp)
    · rw [if_neg ha] at h
      rw [List.cons_append, TTLTable.lookup_cons, if_neg ha]
      exact ih h

theorem TTLTable.lookup_none_of_keys {α : Type} (l : TTLTable α) (k : String)
    (h : ∀ kv ∈ l, kv.1 ≠ k) : TTLTable.lookup l k = none := by
  induction l with
  | nil => rfl
  | cons a rest ih =>
    rw [TTLTable.lookup_cons, if_neg (h a (by simp))]
    exact ih (fun kv hkv => h kv (by simp [hkv]))

/-- C3 counterexample: an alert published at epoch 0 but inserted at
t = 100 is still returned by an access at t = 3650, although its
publish_time + 1h = 3600 already lies in the past; the table's TTL runs
from insertion, so the entry only expires at t = 3700. -/
theorem ttl_alert_outlives_publish_time :
    eewA0.time + 3600 < 3650 ∧
    TTLTable.getItem (TTLTable.setItem [] 100 "A" eewA0) 3650 "A"
      = some eewA0 ∧
    TTLTable.getItem
        (TTLTable.expire (TTLTable.setItem [] 100 "A" eewA0) 3650) 3650 "A"
      = some eewA0 := by
  have hset : TTLTable.setItem [] 100 "A" eewA0
      = [("A", ⟨eewA0, 100 + alertsTTL⟩)] := rfl
  have hexp : TTLTable.expire
        [("A", (⟨eewA0, 100 + alertsTTL⟩ : TTLEntry EEW))] 3650
      = [("A", ⟨eewA0, 100 + alertsTTL⟩)] := by
    rw [TTLTable.expire, List.filter_cons]
    norm_num [alertsTTL, decide_eq_true_eq]
  refine ⟨?_, ?_, ?_⟩
  · norm_num [eewA0, EEW.from_dict, bulletinA0]
  · rw [hset]
    simp only [TTLTable.getItem, TTLTable.lookup_cons]
    norm_num [alertsTTL]
  · rw [hset, hexp]
    simp only [TTLTable.getItem, TTLTable.lookup_cons]
    norm_num [alertsTTL]

/-- C3 (amended): eviction is keyed to insertion time, not publish_time:
an insertion at time t stores the absolute expiry t + 1h, any entry whose
stored expiry has passed is a miss on access, and (for a table with
distinct keys, as a dict guarantees) the expiry sweep run on each access
removes it; an alert whose publish_time + 1h has passed may remain until
its insertion-based expiry. -/
theorem ttl_eviction_by_insertion_time :
    (∀ (tbl : TTLTable EEW) (now : ℚ) (k : String) (v : EEW),
      TTLTable.lookup (TTLTable.setItem tbl now k v) k
        = some ⟨v, now + alertsTTL⟩) ∧
    (∀ (tbl : TTLTable EEW) (now : ℚ) (k : String) (e : TTLEntry EEW),
      TTLTable.lookup tbl k = some e → e.expires ≤ now →
      TTLTable.getItem tbl now k = none) ∧
    (∀ (tbl : TTLTable EEW) (now : ℚ) (k : String),
      (List.map Prod.fst tbl).Nodup →
      (∀ e, TTLTable.lookup tbl k = some e → e.expires ≤ now) →
      TTLTable.lookup (TTLTable.expire tbl now) k = none) := by
  refine ⟨?_, ?_, ?_⟩
  · intro tbl now k v
    rw [TTLTable.setItem,
      TTLTable.lookup_append_left_none _ _ _
        (TTLTable.lookup_filter_ne_self _ k),
      TTLTable.lookup_cons]
    simp
  · intro tbl now k e h hle
    have hn : ¬ now < e.expires := not_lt.mpr hle
    simp [TTLTable.getItem, h, hn]
  · intro tbl now k hnodup h
    induction tbl with
    | nil => rfl
    | cons a rest ih =>
      rw [List.map_cons, List.nodup_cons] at hnodup
      by_cases ha : a.1 = k
      · have he : a.2.expires ≤ now := by
          apply h
          rw [TTLTable.lookup_cons, if_pos ha]
        have hn : ¬ now < a.2.expires := not_lt.mpr he
        rw [TTLTable.expire, List.filter_cons]
        simp only [decide_eq_false hn, Bool.false_eq_true, if_false]
        apply TTLTable.lookup_none_of_keys
        intro kv hkv hk
        have hmem : kv.1 ∈ List.map Prod.fst rest :=
          List.mem_map_of_mem Prod.fst (List.mem_of_mem_filter hkv)
        rw [hk, ← ha] at hmem
        exact hnodup.1 hmem
      · have hrest : ∀ e, TTLTable.lookup rest k = some e →
            e.expires ≤ now := by
          intro e hre
          apply h
          rw [TTLTable.lookup_cons, if_neg ha]
          exact hre
        have hres := ih hnodup.2 hrest
        by_cases hkeep : now < a.2.expires
        · rw [TTLTable.expire, List.filter_cons]
          simp only [decide_eq_true hkeep, if_true]
          rw [TTLTable.lookup_cons, if_neg ha]
          exact hres
        · rw [TTLTable.expire, List.filter_cons]
          simp only [decide_eq_false hkeep, Bool.false_eq_true, if_false]
          exact hres

/-- Witness for C3 at a concrete table: insertion stamps expiry 3700,
and at access time 3700 the entry is a miss and the sweep removes it. -/
theorem ttl_eviction_by_insertion_time_witness :
    TTLTable.lookup (TTLTable.setItem [] 100 "A" eewA0) "A"
      = some ⟨eewA0, 100 + alertsTTL⟩ ∧
    TTLTable.getItem (TTLTable.setItem [] 100 "A" eewA0) 3700 "A" = none ∧
    TTLTable.lookup
        (TTLTable.expire (TTLTable.setItem [] 100 "A" eewA0) 3700) "A"
      = none := by
  refine ⟨ttl_eviction_by_insertion_time.1 [] 100 "A" eewA0, ?_, ?_⟩
  · apply ttl_eviction_by_insertion_time.2.1 _ 3700 "A"
      (⟨eewA0, 100 + alertsTTL⟩ : TTLEntry EEW)
    · exact ttl_eviction_by_insertion_time.1 [] 100 "A" eewA0
    · norm_num [alertsTTL]
  · apply ttl_eviction_by_insertion_time.2.2
    · simp [TTLTable.setItem, TTLTable.expire]
    · intro e he
      rw [ttl_eviction_by_insertion_time.1 [] 100 "A" eewA0] at he
      cases he
      norm_num [alertsTTL]

/-! ## C4 -/

theorem calcStates_noop (ds : List CalcAction)
    (hds : ∀ a ∈ ds, a.isDispatch = true) (r : List (String × ℤ)) :
    ∀ st ∈ calcStates r ds, st = r := by
  induction ds generalizing r with
  | nil =>
    intro st hst
    simpa [calcStates] using hst
  | cons a rest ih =>
    intro st hst
    have ha : applyCalcAction r a = r := by
      have := hds a (by simp)
      cases a <;> simp_all [CalcAction.isDispatch, applyCalcAction]
    rw [calcStates, ha] at hst
    rcases List.mem_cons.mp hst with h | h
    · exact h
    · exact ih (fun b hb => hds b (by simp [hb])) r st h

theorem foldl_calc_noop (ds : List CalcAction)
    (hds : ∀ a ∈ ds, a.isDispatch = true) (r : List (String × ℤ)) :
    List.foldl applyCalcAction r ds = r := by
  induction ds generalizing r with
  | nil => rfl
  | cons a rest ih =>
    have ha : applyCalcAction r a = r := by
      have := hds a (by simp)
      cases a <;> simp_all [CalcAction.isDispatch, applyCalcAction]
    rw [List.foldl_cons, ha]
    exact ih (fun b hb => hds b (by simp [hb])) r

/-- C4: when Client.update_alert replaces a tracked alert with a bulletin
of the same id, the cancellation of the old alert's computation is
performed strictly before any update_eew dispatch task is created, and
along the entire action sequence at most one computation of that alert id
is running at any point, ending with exactly the new serial's computation.
(spec-modelled: the _calc_task handle and calc_all_data_in_executor are
referenced from src but defined nowhere under src/.) -/
theorem update_alert_cancel_before_dispatch (old eew : EEW) (n : ℕ)
    (hid : old.id = eew.id) :
    (CalcAction.cancelCalc old.id old.serial ∈
      List.takeWhile (fun a => ¬ CalcAction.isDispatch a)
        (Client.update_alert_trace (some old) eew n)) ∧
    (∀ st ∈ calcStates [(old.id, old.serial)]
        (Client.update_alert_trace (some old) eew n),
      (runningFor st eew.id).length ≤ 1) ∧
    List.foldl applyCalcAction [(old.id, old.serial)]
        (Client.update_alert_trace (some old) eew n)
      = [(eew.id, eew.serial)] := by
  have htr : Client.update_alert_trace (some old) eew n
      = CalcAction.storeAlert eew.id eew.serial
        :: CalcAction.cancelCalc old.id old.serial
        :: CalcAction.startCalc eew.id eew.serial
        :: List.map (fun m => CalcAction.dispatchUpdate m eew.id eew.serial)
            (List.range n) := by
    simp [Client.update_alert_trace]
  have hdispatch : ∀ a ∈ List.map
      (fun m => CalcAction.dispatchUpdate m eew.id eew.serial)
      (List.range n), a.isDispatch = true := by
    intro a ha
    obtain ⟨m, _, rfl⟩ := List.mem_map.mp ha
    rfl
  have hcancel : List.filter
      (fun r => decide ¬ (r.1 = old.id ∧ r.2 = old.serial))
      [(old.id, old.serial)] = ([] : List (String × ℤ)) := by
    simp
  refine ⟨?_, ?_, ?_⟩
  · rw [htr]
    simp [List.takeWhile, CalcAction.isDispatch]
  · intro st hst
    rw [htr, calcStates, calcStates, calcStates] at hst
    simp only [applyCalcAction, hcancel, List.nil_append] at hst
    rcases List.mem_cons.mp hst with h | hst
    · subst h
      simp [runningFor, hid]
    rcases List.mem_cons.mp hst with h | hst
    · subst h
      simp [runningFor, hid]
    rcases List.mem_cons.mp hst with h | hst
    · subst h
      simp [runningFor]
    · have := calcStates_noop _ hdispatch [(eew.id, eew.serial)] st hst
      subst this
      simp [runningFor]
  · rw [htr]
    simp only [List.foldl_cons, applyCalcAction, hcancel, List.nil_append]
    exact foldl_calc_noop _ hdispatch _

/-- Witness for C4: alert A updated from serial 1 to serial 2 with two
notifiers. -/
theorem update_alert_cancel_before_dispatch_witness :
    (CalcAction.cancelCalc (eewA 1).id (eewA 1).serial ∈
      List.takeWhile (fun a => ¬ CalcAction.isDispatch a)
        (Client.update_alert_trace (some (eewA 1)) (eewA 2) 2)) ∧
    List.foldl applyCalcAction [((eewA 1).id, (eewA 1).serial)]
        (Client.update_alert_trace (some (eewA 1)) (eewA 2) 2)
      = [((eewA 2).id, (eewA 2).serial)] :=
  ⟨(update_alert_cancel_before_dispatch (eewA 1) (eewA 2) 2 rfl).1,
    (update_alert_cancel_before_dispatch (eewA 1) (eewA 2) 2 rfl).2.2⟩

/-! ## C1 -/

theorem TTLTable.lookup_mem {α : Type} {l : TTLTable α} {k : String}
    {e : TTLEntry α} (h : TTLTable.lookup l k = some e) :
    ∃ kv, kv ∈ l ∧ kv.1 = k ∧ kv.2 = e := by
  rw [TTLTable.lookup] at h
  cases hf : List.find? (fun kv => kv.1 = k) l with
  | none => rw [hf] at h; exact absurd h (by simp)
  | some kv =>
    rw [hf] at h
    refine ⟨kv, List.mem_of_find?_eq_some hf, ?_, ?_⟩
    · simpa using List.find?_some hf
    · cases h; rfl

theorem freshTable_expire {α : Type} {now : ℚ} {tbl : TTLTable α}
    (h : ∀ kv ∈ tbl, kv.2.expires = now + alertsTTL) :
    TTLTable.expire tbl now = tbl := by
  rw [TTLTable.expire]
  apply List.filter_eq_self.mpr
  intro kv hkv
  rw [h kv hkv]
  have : now < now + alertsTTL := by
    rw [alertsTTL]; linarith
  exact decide_eq_true this

theorem TTLTable.lookup_setItem_self {α : Type} (tbl : TTLTable α)
    (now : ℚ) (k : String) (v : α) :
    TTLTable.lookup (TTLTable.setItem tbl now k v) k
      = some ⟨v, now + alertsTTL⟩ := by
  rw [TTLTable.setItem,
    TTLTable.lookup_append_left_none _ _ _
      (TTLTable.lookup_filter_ne_self _ k),
    TTLTable.lookup_cons]
  simp

theorem TTLTable.lookup_setItem_ne {α : Type} (tbl : TTLTable α)
    (now : ℚ) (k k2 : String) (v : α) (hne : k2 ≠ k)
    (hfresh : ∀ kv ∈ tbl, kv.2.expires = now + alertsTTL) :
    TTLTable.lookup (TTLTable.setItem tbl now k v) k2
      = TTLTable.lookup tbl k2 := by
  rw [TTLTable.setItem, freshTable_expire hfresh]
  induction tbl with
  | nil =>
    rw [List.filter_nil, List.nil_append, TTLTable.lookup_cons,
      if_neg (fun h : k = k2 => hne h.symm)]
  | cons a rest ih =>
    by_cases ha : a.1 = k
    · rw [List.filter_cons]
      have : decide ¬ a.1 = k = false := by simp [ha]
      rw [this]
      simp only [Bool.false_eq_true, if_false]
      rw [ih (fun kv hkv => hfresh kv (by simp [hkv])), TTLTable.lookup_cons]
      rw [if_neg (fun h => hne (by rw [← h, ha]))]
    · rw [List.filter_cons]
      have : decide ¬ a.1 = k = true := by simp [ha]
      rw [this]
      simp only [if_true]
      rw [List.cons_append, TTLTable.lookup_cons, TTLTable.lookup_cons,
        ih (fun kv hkv => hfresh kv (by simp [hkv]))]

theorem freshTable_setItem {α : Type} {now : ℚ} {tbl : TTLTable α}
    (k : String) (v : α) (h : ∀ kv ∈ tbl, kv.2.expires = now + alertsTTL) :
    ∀ kv ∈ TTLTable.setItem tbl now k v, kv.2.expires = now + alertsTTL := by
  intro kv hkv
  rw [TTLTable.setItem] at hkv
  rcases List.mem_append.mp hkv with hl | hr
  · exact h kv (List.mem_of_mem_filter (by
      rw [freshTable_expire h] at hl; exact hl))
  · rcases List.mem_singleton.mp hr with rfl
    rfl

theorem TTLTable.getItem_fresh {α : Type} {now : ℚ} {tbl : TTLTable α}
    (k : String)
    (h : ∀ kv ∈ tbl, kv.2.expires = now + alertsTTL) :
    TTLTable.getItem tbl now k
      = Option.map TTLEntry.value (TTLTable.lookup tbl k) := by
  cases hlk : TTLTable.lookup tbl k with
  | none => rw [TTLTable.getItem, hlk]; rfl
  | some e =>
    obtain ⟨kv, hmem, -, hkv2⟩ := TTLTable.lookup_mem hlk
    have hexp : e.expires = now + alertsTTL := by
      rw [← hkv2]; exact h kv hmem
    have hlt : now < e.expires := by
      rw [hexp, alertsTTL]; linarith
    rw [TTLTable.getItem, hlk]
    simp [hlt]

theorem eventSerials_append (k : String) (evs1 evs2 : List Event) :
    eventSerials k (evs1 ++ evs2)
      = eventSerials k evs1 ++ eventSerials k evs2 := by
  simp [eventSerials, List.filter_append]

theorem eventSerials_eq_nil {k : String} {evs : List Event}
    (h : ∀ e ∈ evs, ¬ e.eew.id = k) : eventSerials k evs = [] := by
  rw [eventSerials, List.map_eq_nil_iff]
  exact List.filter_eq_nil_iff.mpr (fun e he => by simpa using h e he)

theorem mem_eventSerials {k : String} {evs : List Event} {s : ℤ}
    (h : s ∈ eventSerials k evs) :
    ∃ e ∈ evs, e.eew.id = k ∧ e.eew.serial = s := by
  rw [eventSerials] at h
  obtain ⟨e, he, hs⟩ := List.mem_map.mp h
  obtain ⟨hmem, hid⟩ := List.mem_filter.mp he
  exact ⟨e, hmem, by simpa using hid, hs⟩

theorem on_eew_not_allowed {src : Option (List String)} {now : ℚ}
    {tbl : TTLTable EEW} {d : Bulletin}
    (h : ¬ eewSourceAllows src d.author = true) :
    Client.on_eew src tbl now d = (tbl, []) := by
  unfold Client.on_eew
  rw [if_pos h]

theorem on_eew_result_new {src : Option (List String)} {now : ℚ}
    {tbl : TTLTable EEW} {d : Bulletin}
    (hallow : eewSourceAllows src d.author = true)
    (hfresh : ∀ kv ∈ tbl, kv.2.expires = now + alertsTTL)
    (hlk : TTLTable.lookup tbl d.id = none) :
    Client.on_eew src tbl now d
      = (TTLTable.setItem tbl now d.id (EEW.from_dict d),
         [Event.send (EEW.from_dict d)]) := by
  unfold Client.on_eew
  rw [if_neg (not_not_intro hallow)]
  simp only [freshTable_expire hfresh, TTLTable.getItem_fresh d.id hfresh,
    hlk, Option.map_none']
  rfl

theorem on_eew_result_update {src : Option (List String)} {now : ℚ}
    {tbl : TTLTable EEW} {d : Bulletin} {en : TTLEntry EEW}
    (hallow : eewSourceAllows src d.author = true)
    (hfresh : ∀ kv ∈ tbl, kv.2.expires = now + alertsTTL)
    (hlk : TTLTable.lookup tbl d.id = some en)
    (hgt : en.value.serial < d.serial) :
    Client.on_eew src tbl now d
      = (TTLTable.setItem tbl now d.id (EEW.from_dict d),
         [Event.update (EEW.from_dict d)]) := by
  unfold Client.on_eew
  rw [if_neg (not_not_intro hallow)]
  simp only [freshTable_expire hfresh, TTLTable.getItem_fresh d.id hfresh,
    hlk, Option.map_some']
  rw [if_pos hgt]
  rfl

theorem on_eew_result_stale {src : Option (List String)} {now : ℚ}
    {tbl : TTLTable EEW} {d : Bulletin} {en : TTLEntry EEW}
    (hallow : eewSourceAllows src d.author = true)
    (hfresh : ∀ kv ∈ tbl, kv.2.expires = now + alertsTTL)
    (hlk : TTLTable.lookup tbl d.id = some en)
    (hle : d.serial ≤ en.value.serial) :
    Client.on_eew src tbl now d = (tbl, []) := by
  unfold Client.on_eew
  rw [if_neg (not_not_intro hallow)]
  simp only [freshTable_expire hfresh, TTLTable.getItem_fresh d.id hfresh,
    hlk, Option.map_some']
  rw [if_neg (not_lt.mpr hle)]

theorem on_eew_inv (src : Option (List String)) (now : ℚ)
    (tbl : TTLTable EEW) (evs : List Event) (d : Bulletin)
    (h : ClientInv now tbl evs) :
    ClientInv now (Client.on_eew src tbl now d).1
      (evs ++ (Client.on_eew src tbl now d).2) := by
  obtain ⟨hfresh, hpw, hbound⟩ := h
  by_cases hallow : eewSourceAllows src d.author = true
  case neg =>
    rw [on_eew_not_allowed hallow]
    exact ⟨hfresh, by simpa using hpw, by simpa using hbound⟩
  case pos =>
  cases hlk : TTLTable.lookup tbl d.id with
  | none =>
    rw [on_eew_result_new hallow hfresh hlk]
    have hid : (EEW.from_dict d).id = d.id := rfl
    refine ⟨freshTable_setItem _ _ hfresh, ?_, ?_⟩
    · intro k
      rw [eventSerials_append]
      by_cases hk : d.id = k
      · have hnil : eventSerials k evs = [] := by
          apply eventSerials_eq_nil
          intro e he hek
          obtain ⟨en, hlkup, -⟩ := hbound e he
          rw [hek, ← hk, hlk] at hlkup
          exact absurd hlkup (by simp)
        rw [hnil, List.nil_append, eventSerials]
        simp [Event.eew, hid, hk]
      · have : eventSerials k [Event.send (EEW.from_dict d)] = [] := by
          apply eventSerials_eq_nil
          intro e he
          rcases List.mem_singleton.mp he with rfl
          simpa [Event.eew, hid] using hk
        rw [this, List.append_nil]
        exact hpw k
    · intro e he
      rcases List.mem_append.mp he with hold | hnew
      · obtain ⟨en, hlkup, hle⟩ := hbound e hold
        by_cases hek : e.eew.id = d.id
        · rw [hek, hlk] at hlkup
          exact absurd hlkup (by simp)
        · exact ⟨en, by rwa [TTLTable.lookup_setItem_ne tbl now d.id
            e.eew.id (EEW.from_dict d) hek hfresh], hle⟩
      · rcases List.mem_singleton.mp hnew with rfl
        refine ⟨⟨EEW.from_dict d, now + alertsTTL⟩, ?_, le_refl _⟩
        simpa [Event.eew, hid] using
          TTLTable.lookup_setItem_self tbl now d.id (EEW.from_dict d)
  | some en =>
    by_cases hgt : en.value.serial < d.serial
    case neg =>
      rw [on_eew_result_stale hallow hfresh hlk (not_lt.mp hgt)]
      exact ⟨hfresh, by simpa using hpw, by simpa using hbound⟩
    case pos =>
    rw [on_eew_result_update hallow hfresh hlk hgt]
    have hid : (EEW.from_dict d).id = d.id := rfl
    have hserial_le : ∀ s ∈ eventSerials d.id evs, s ≤ en.value.serial := by
      intro s hs
      obtain ⟨e, he, hek, hserial⟩ := mem_eventSerials hs
      obtain ⟨en2, hlkup, hle⟩ := hbound e he
      rw [hek, hlk] at hlkup
      cases hlkup
      rw [← hserial]
      exact hle
    refine ⟨freshTable_setItem _ _ hfresh, ?_, ?_⟩
    · intro k
      rw [eventSerials_append]
      by_cases hk : d.id = k
      · subst hk
        have hone : eventSerials d.id [Event.update (EEW.from_dict d)]
            = [d.serial] := by
          simp [eventSerials, Event.eew, hid]
          rfl
        rw [hone]
        rw [List.pairwise_append]
        refine ⟨hpw d.id, List.pairwise_singleton _ _, ?_⟩
        intro s hs s2 hs2
        rcases List.mem_singleton.mp hs2 with rfl
        exact lt_of_le_of_lt (hserial_le s hs) hgt
      · have : eventSerials k [Event.update (EEW.from_dict d)] = [] := by
          apply eventSerials_eq_nil
          intro e he
          rcases List.mem_singleton.mp he with rfl
          simpa [Event.eew, hid] using hk
        rw [this, List.append_nil]
        exact hpw k
    · intro e he
      rcases List.mem_append.mp he with hold | hnew
      · obtain ⟨en2, hlkup, hle⟩ := hbound e hold
        by_cases hek : e.eew.id = d.id
        · rw [hek, hlk] at hlkup
          cases hlkup
          refine ⟨⟨EEW.from_dict d, now + alertsTTL⟩, ?_, ?_⟩
          · rw [hek]
            exact TTLTable.lookup_setItem_self tbl now d.id (EEW.from_dict d)
          · exact le_trans hle (le_of_lt hgt)
        · exact ⟨en2, by rwa [TTLTable.lookup_setItem_ne tbl now d.id
            e.eew.id (EEW.from_dict d) hek hfresh], hle⟩
      · rcases List.mem_singleton.mp hnew with rfl
        refine ⟨⟨EEW.from_dict d, now + alertsTTL⟩, ?_, le_refl _⟩
        simpa [Event.eew, hid] using
          TTLTable.lookup_setItem_self tbl now d.id (EEW.from_dict d)

theorem processAll_inv (src : Option (List String)) (now : ℚ)
    (l : List Bulletin) :
    ∀ (tbl : TTLTable EEW) (evs : List Event), ClientInv now tbl evs →
    ClientInv now (Client.processAll src tbl now l).1
      (evs ++ (Client.processAll src tbl now l).2) := by
  induction l with
  | nil =>
    intro tbl evs h
    simpa [Client.processAll] using h
  | cons d rest ih =>
    intro tbl evs h
    have h2 := ih _ _ (on_eew_inv src now tbl evs d h)
    simpa [Client.processAll, List.append_assoc] using h2

theorem pairwise_lt_filter_length (σ : ℤ) :
    ∀ l : List ℤ, List.Pairwise (· < ·) l →
    (List.filter (fun s => s = σ) l).length ≤ 1 := by
  intro l h
  induction l with
  | nil => simp
  | cons a rest ih =>
    rw [List.pairwise_cons] at h
    rw [List.filter_cons]
    by_cases ha : a = σ
    · have hnone : List.filter (fun s => s = σ) rest = [] := by
        apply List.filter_eq_nil_iff.mpr
        intro b hb
        have hab := h.1 b hb
        simp only [decide_eq_true_eq]
        omega
      simp [ha, hnone]
    · simp only [decide_eq_false ha, Bool.false_eq_true, if_false]
      exact ih h.2

theorem events_filter_length (k : String) (σ : ℤ) (evs : List Event)
    (hpw : List.Pairwise (· < ·) (eventSerials k evs)) :
    (List.filter (fun e => e.eew.id = k ∧ e.eew.serial = σ) evs).length
      ≤ 1 := by
  have h1 : List.filter (fun e => e.eew.id = k ∧ e.eew.serial = σ) evs
      = List.filter (fun e => e.eew.serial = σ)
          (List.filter (fun e => e.eew.id = k) evs) := by
    rw [List.filter_filter]
    apply List.filter_congr
    intro e _
    by_cases h1 : e.eew.id = k <;> by_cases h2 : e.eew.serial = σ <;>
      simp [h1, h2]
  have h2 : List.filter (fun s => s = σ) (eventSerials k evs)
      = List.map (fun e => e.eew.serial)
          (List.filter (fun e => e.eew.serial = σ)
            (List.filter (fun e => e.eew.id = k) evs)) := by
    rw [eventSerials, List.filter_map]
    rfl
  have h3 := pairwise_lt_filter_length σ _ hpw
  rw [h2, List.length_map] at h3
  rw [h1]
  exact h3

/-- C1 (amended): in Client.on_eew, for a bulletin from an accepted
provider whose id is tracked after the expiry sweep, an update event is
dispatched if and only if the incoming serial is strictly greater than the
stored serial, and a bulletin with an equal or lower serial produces no
event; consequently, over any same-instant run from an empty table, at
most one event (send or update) is dispatched per (id, serial) pair.  In
the older HTTPEEWClient._get_request, however, an update is dispatched
whenever the incoming serial merely differs from the stored one, so a
strictly lower serial also produces an update there. -/
theorem on_eew_update_iff_greater_serial :
    (∀ (src : Option (List String)) (tbl : TTLTable EEW) (now : ℚ)
        (d : Bulletin) (e : EEW),
      eewSourceAllows src d.author = true →
      TTLTable.getItem (TTLTable.expire tbl now) now d.id = some e →
      (((Client.on_eew src tbl now d).2
          = [Event.update (EEW.from_dict d)]) ↔ e.serial < d.serial) ∧
      (d.serial ≤ e.serial → (Client.on_eew src tbl now d).2 = [])) ∧
    (∀ (src : Option (List String)) (now : ℚ) (l : List Bulletin)
        (k : String) (σ : ℤ),
      (List.filter (fun e => e.eew.id = k ∧ e.eew.serial = σ)
        (Client.processAll src [] now l).2).length ≤ 1) := by
  constructor
  · intro src tbl now d e hallow hget
    unfold Client.on_eew
    rw [if_neg (not_not_intro hallow)]
    simp only [hget]
    by_cases hgt : e.serial < d.serial
    · rw [if_pos hgt]
      exact ⟨iff_of_true rfl hgt, fun hle => absurd hgt (not_lt.mpr hle)⟩
    · rw [if_neg hgt]
      refine ⟨⟨fun h => absurd h (by simp), fun hlt => absurd hlt hgt⟩,
        fun _ => rfl⟩
  · intro src now l k σ
    have h0 : ClientInv now ([] : TTLTable EEW) [] := by
      refine ⟨by simp, ?_, by simp⟩
      intro k2
      simp [eventSerials]
    have h := processAll_inv src now l [] [] h0
    rw [List.nil_append] at h
    exact events_filter_length k σ _ (h.2.1 k)

/-- Witness for C1: with A tracked at serial 1 (inserted at the access
instant), a serial-2 bulletin from an accepted provider dispatches exactly
the update event. -/
theorem on_eew_update_iff_greater_serial_witness :
    eewSourceAllows none (bulletinA 2).author = true ∧
    (eewA 1).serial < (bulletinA 2).serial ∧
    (Client.on_eew none [("A", ⟨eewA 1, 3600⟩)] 0 (bulletinA 2)).2
      = [Event.update (eewA 2)] := by
  have h1 : TTLTable.expire [("A", (⟨eewA 1, 3600⟩ : TTLEntry EEW))] 0
      = [("A", ⟨eewA 1, 3600⟩)] := by
    rw [TTLTable.expire, List.filter_cons]
    norm_num
  have hget : TTLTable.getItem
      (TTLTable.expire [("A", (⟨eewA 1, 3600⟩ : TTLEntry EEW))] 0) 0
      (bulletinA 2).id = some (eewA 1) := by
    rw [h1]
    simp only [TTLTable.getItem, TTLTable.lookup_cons]
    norm_num [bulletinA]
  refine ⟨rfl, by decide, ?_⟩
  exact (on_eew_update_iff_greater_serial.1 none
    [("A", ⟨eewA 1, 3600⟩)] 0 (bulletinA 2) (eewA 1) rfl hget).1.mpr
    (by decide)
